import Mathlib

/-!
Verification development for the analysis-orchestration and session-state
subsystem of the cf_ai_Codefy repository.

The definitions below are a shallow embedding of the TypeScript source:

* `QualityAnalysisState` (durable object, `saveAnalysis`, `getSession`,
  `cleanupOldSessions`, `saveState`) — the session store;
* `CodeQualityAgent.saveAnalysisResult` / `performCodeAnalysis` — the
  write-through persistence path of the agent;
* `isCodeAnalysisRequest` (worker entry `src/index.ts`) — the content
  classifier;
* `AnalysisWorkflow.performParallelAnalysis` — the parallel analysis
  dispatcher.

Modelling conventions:
* JS strings are `List Char`; `String.prototype.includes` is substring
  containment; the regular expressions used by the classifier are embedded
  as recursive scanners over `List Char`.
* JS numbers carried by analysis results are rationals (`ℚ`); a JSON field
  that is absent or not a number is `none` (JSON cannot encode `NaN`).
  `Math.round x = ⌊x + 1/2⌋` is embedded as `jsRound` on `ℚ`.
* The durable-object storage (`ctx.storage.put`) is a collaborator that can
  fail; each `saveState` call takes a boolean describing whether this
  particular put succeeds, and JS exceptions are `Except` results.  JS
  mutations are never rolled back by a throw, so stateful operations return
  the mutated state alongside the `Except` outcome.
* The `Promise.allSettled` join of the dispatcher is embedded by passing the
  settlement (fulfilled value or rejection) of each launched per-aspect
  analysis call as a function argument; the dispatcher then aggregates those
  settlements exactly as the JS result-processing code does.
-/

/-- Severity of a finding (`z.enum` values in the schema; security findings
additionally admit `critical`). -/
inductive Severity : Type
  | low
  | medium
  | high
  | critical
deriving DecidableEq, Repr

/-- One reported issue: severity, description, optional line, suggestion. -/
structure Finding : Type where
  severity : Severity
  issue : List Char
  line : Option Int
  suggestion : List Char
deriving DecidableEq, Repr

/-- `CodeAnalysisResult` as persisted: three finding lists, an overall score
and a summary.  `overallScore = none` models a JSON payload in which the
field is absent or not a number (`typeof analysis.overallScore !== 'number'`). -/
structure CodeAnalysisResult : Type where
  securityIssues : List Finding
  performanceIssues : List Finding
  qualityIssues : List Finding
  overallScore : Option ℚ
  summary : List Char
deriving DecidableEq, Repr

/-- `Math.round` of JavaScript on a rational: `Math.round x = ⌊x + 1/2⌋`
(round half toward positive infinity). -/
def jsRound (q : ℚ) : Int :=
  ⌊q + 1 / 2⌋

/-- Score validation of `QualityAnalysisState.saveAnalysis` (part_002,
lines 353-357): a missing / non-numeric / out-of-range score is replaced by
the neutral default 50, anything else is kept. -/
def normalizeScore (o : Option ℚ) : ℚ :=
  match o with
  | none => 50
  | some q => if q < 0 ∨ q > 100 then 50 else q

/-- The in-place mutation `analysis.overallScore = 50` (when invalid): the
stored record always carries the normalized score. -/
def normalizeAnalysis (a : CodeAnalysisResult) : CodeAnalysisResult :=
  { a with overallScore := some (normalizeScore a.overallScore) }

/-- The summand `(a.overallScore || 50)` used by the running-total reduce:
`undefined` and the number `0` are falsy in JS, so both contribute 50. -/
def scoreOrDefault (o : Option ℚ) : ℚ :=
  match o with
  | none => 50
  | some q => if q = 0 then 50 else q

/-- Contribution of an originally-submitted result to the stored running
total (its score is first normalized, then passed through `|| 50`). -/
def contribScore (a : CodeAnalysisResult) : ℚ :=
  scoreOrDefault (some (normalizeScore a.overallScore))

/-- `l.slice(-n)`: the last `n` elements of a list. -/
def lastN (n : Nat) (l : List α) : List α :=
  l.drop (l.length - n)

/-- A per-identity session record of the durable object. -/
structure AnalysisSession : Type where
  id : List Char
  userId : Option (List Char)
  createdAt : Int
  lastActivity : Int
  analyses : List CodeAnalysisResult
  totalAnalyses : Nat
  averageScore : Int
deriving DecidableEq, Repr

/-- The session created lazily on first access (`getSession`, new branch). -/
def freshSession (sid : List Char) (u : Option (List Char)) (now : Int) :
    AnalysisSession :=
  { id := sid
    userId := u
    createdAt := now
    lastActivity := now
    analyses := []
    totalAnalyses := 0
    averageScore := 0 }

/-- The session mutation performed by `saveAnalysis` (part_002, lines
353-371), in source order: normalize the score, push, increment
`totalAnalyses`, update `lastActivity`, recompute `averageScore` from the
retained entries divided by `totalAnalyses`, then truncate the history to
the 50 most recent entries. -/
def saveAnalysisStep (session : AnalysisSession) (analysis : CodeAnalysisResult)
    (now : Int) : AnalysisSession :=
  let analysis1 := normalizeAnalysis analysis
  let analyses1 := session.analyses ++ [analysis1]
  let total1 := session.totalAnalyses + 1
  let totalScore : ℚ := (analyses1.map (fun a => scoreOrDefault a.overallScore)).sum
  let avg : Int := jsRound (totalScore / (total1 : ℚ))
  let analyses2 := if analyses1.length > 50 then lastN 50 analyses1 else analyses1
  { session with
      analyses := analyses2
      totalAnalyses := total1
      lastActivity := now
      averageScore := avg }

/-- A sequence of `saveAnalysis` calls against one session (each call routes
through `saveAnalysisStep`; the interleaved `getSession` only refreshes
`lastActivity`, which `saveAnalysisStep` overwrites anyway). -/
def runSaves (s : AnalysisSession) (rs : List CodeAnalysisResult) (now : Int) :
    AnalysisSession :=
  rs.foldl (fun acc a => saveAnalysisStep acc a now) s

/-! ### Content classifier (`isCodeAnalysisRequest`, worker entry `src/index.ts`) -/

/-- The backtick character. -/
def tick : Char := Char.ofNat 96

/-- Three consecutive backticks, the fence of a code block. -/
def tick3 : List Char := [tick, tick, tick]

/-- `String.prototype.includes`: `containsSub needle hay` is true when
`needle` occurs contiguously inside `hay`. -/
def containsSub (needle : List Char) : List Char → Bool
  | [] => needle.isPrefixOf []
  | c :: rest => needle.isPrefixOf (c :: rest) || containsSub needle rest

/-- The regex test for a fenced code block: some occurrence of three
backticks followed (possibly after arbitrary characters) by three more. -/
def hasFencedBlock : List Char → Bool
  | [] => false
  | c :: rest =>
    (tick3.isPrefixOf (c :: rest) && containsSub tick3 ((c :: rest).drop 3))
      || hasFencedBlock rest

/-- Scan for the next backtick (the closing delimiter of an inline span). -/
def tickSearch : List Char → Bool
  | [] => false
  | c :: rest => if c = tick then true else tickSearch rest

/-- After an opening backtick the inline-span regex needs at least one
non-backtick character and then a closing backtick. -/
def openTickScan : List Char → Bool
  | [] => false
  | c :: rest => if c = tick then false else tickSearch rest

/-- The regex test for an inline code span: a backtick, one or more
non-backtick characters, and a closing backtick. -/
def hasInlineCode : List Char → Bool
  | [] => false
  | c :: rest => (if c = tick then openTickScan rest else false) || hasInlineCode rest

/-- `toLowerCase` of the scanned text (ASCII case folding, which is what the
regex `i`-flag performs on these ASCII keywords). -/
def lowerStr (s : List Char) : List Char := s.map Char.toLower

/-- The six alternatives of the keyword regex in `src/index.ts`
(`/analyze|review|check|security|performance|quality/i`). -/
def analysisKeywordList : List (List Char) :=
  [("analyze").toList, ("review").toList, ("check").toList,
   ("security").toList, ("performance").toList, ("quality").toList]

/-- The eight alternatives of the structural-token regex in `src/index.ts`
(`/function|class|def|const|let|var|import|export/`, case sensitive). -/
def structuralTokenList : List (List Char) :=
  [("function").toList, ("class").toList, ("def").toList, ("const").toList,
   ("let").toList, ("var").toList, ("import").toList, ("export").toList]

/-- The case-insensitive keyword pattern of the classifier. -/
def keywordPatternTest (s : List Char) : Bool :=
  analysisKeywordList.any (fun k => containsSub k (lowerStr s))

/-- The case-sensitive structural-token pattern of the classifier. -/
def structuralPatternTest (s : List Char) : Bool :=
  structuralTokenList.any (fun k => containsSub k s)

/-- `isCodeAnalysisRequest` of `src/index.ts` (lines 23-32):
`codePatterns.some(pattern => pattern.test(content))` over the four
patterns: fenced block, inline span, keyword regex, structural regex. -/
def isCodeAnalysisRequest (content : List Char) : Bool :=
  hasFencedBlock content || hasInlineCode content
    || keywordPatternTest content || structuralPatternTest content

/-! ### Analysis dispatcher (`AnalysisWorkflow.performParallelAnalysis`) -/

/-- One of the three analysis dimensions. -/
inductive Aspect : Type
  | security
  | performance
  | quality
deriving DecidableEq, Repr

/-- The settled outcome recorded for one requested aspect: either the
fulfilled value of its analysis call or the sentinel error object
(`{ error: '... analysis failed' }`). -/
inductive SettledAspect (α : Type) : Type
  | value (v : α)
  | errorSentinel (msg : List Char)
deriving DecidableEq, Repr

/-- The loose results object assembled by the dispatcher: a field per
aspect, absent when that aspect was not requested. -/
structure DispatchResults (α : Type) : Type where
  security : Option (SettledAspect α)
  performance : Option (SettledAspect α)
  quality : Option (SettledAspect α)
deriving DecidableEq, Repr

/-- Field selector for `DispatchResults`. -/
def DispatchResults.field {α : Type} (r : DispatchResults α) (a : Aspect) :
    Option (SettledAspect α) :=
  match a with
  | Aspect.security => r.security
  | Aspect.performance => r.performance
  | Aspect.quality => r.quality

/-- Sentinel message substituted when the security analysis rejects. -/
def securityFailSentinel : List Char := ("Security analysis failed").toList

/-- Sentinel message substituted when the performance analysis rejects. -/
def performanceFailSentinel : List Char := ("Performance analysis failed").toList

/-- Sentinel message substituted when the quality analysis rejects. -/
def qualityFailSentinel : List Char := ("Quality analysis failed").toList

/-- The sentinel message of each aspect. -/
def aspectFailSentinel : Aspect → List Char
  | Aspect.security => securityFailSentinel
  | Aspect.performance => performanceFailSentinel
  | Aspect.quality => qualityFailSentinel

/-- `analysisResults[index].status === 'fulfilled' ? value : sentinel`:
reading one settled entry of the `Promise.allSettled` result list. -/
def settleAt {α : Type} (settled : List (Except (List Char) α)) (i : Nat)
    (failMsg : List Char) : SettledAspect α :=
  match settled[i]? with
  | some (Except.ok v) => SettledAspect.value v
  | some (Except.error _) => SettledAspect.errorSentinel failMsg
  | none => SettledAspect.errorSentinel failMsg

/-- The ternary applied directly to one settlement. -/
def settleOutcome {α : Type} (failMsg : List Char) (o : Except (List Char) α) :
    SettledAspect α :=
  match o with
  | Except.ok v => SettledAspect.value v
  | Except.error _ => SettledAspect.errorSentinel failMsg

/-- `AnalysisWorkflow.performParallelAnalysis` (analysis-workflow.ts, lines
78-123).  `runAspect` supplies the settlement (fulfilled value or rejection)
of each launched per-aspect analysis call, which is how the
`Promise.allSettled` join is observed after every call has settled.  The
task list is built in the fixed order security, performance, quality for the
requested aspects and the results object is assembled with the same
running-index bookkeeping as the source.  The body contains no `throw`, so
the embedded function always returns `Except.ok`. -/
def performParallelAnalysis {α : Type} (code : List Char)
    (analysisTypes : List Aspect)
    (runAspect : Aspect → List Char → Except (List Char) α) :
    Except (List Char) (DispatchResults α) :=
  let tasks : List (Except (List Char) α) :=
    (if Aspect.security ∈ analysisTypes then [runAspect Aspect.security code] else [])
      ++ (if Aspect.performance ∈ analysisTypes then [runAspect Aspect.performance code] else [])
      ++ (if Aspect.quality ∈ analysisTypes then [runAspect Aspect.quality code] else [])
  let settled := tasks
  let r0 : DispatchResults α := { security := none, performance := none, quality := none }
  let p1 : DispatchResults α × Nat :=
    if Aspect.security ∈ analysisTypes then
      ({ r0 with security := some (settleAt settled 0 securityFailSentinel) }, 1)
    else (r0, 0)
  let p2 : DispatchResults α × Nat :=
    if Aspect.performance ∈ analysisTypes then
      ({ p1.1 with performance := some (settleAt settled p1.2 performanceFailSentinel) }, p1.2 + 1)
    else p1
  let r3 : DispatchResults α :=
    if Aspect.quality ∈ analysisTypes then
      { p2.1 with quality := some (settleAt settled p2.2 qualityFailSentinel) }
    else p2.1
  Except.ok r3

/-! ### Session store (`QualityAnalysisState`) and agent write-through -/

/-- The in-memory `Map<string, AnalysisSession>` of the durable object, as
an association list in insertion order. -/
def SessionMap : Type := List (List Char × AnalysisSession)

/-- `Map.prototype.get`. -/
def mapGet (m : SessionMap) (k : List Char) : Option AnalysisSession :=
  match m with
  | [] => none
  | e :: rest => if e.1 = k then some e.2 else mapGet rest k

/-- `Map.prototype.set`: replaces in place, or appends a new entry. -/
def mapSet (m : SessionMap) (k : List Char) (v : AnalysisSession) : SessionMap :=
  match m with
  | [] => [(k, v)]
  | e :: rest => if e.1 = k then (k, v) :: rest else e :: mapSet rest k v

/-- The message of the exception re-thrown by `saveState` when
`ctx.storage.put` fails. -/
def storageFailMsg : List Char :=
  ("Failed to save state: storage put failed").toList

/-- `QualityAnalysisState.saveState` (part_002, lines 546-555): forwards the
whole session map to `ctx.storage.put`; on a put failure it re-throws
`Failed to save state: ...`.  The boolean is the outcome of this particular
put call of the storage collaborator. -/
def saveState (putOk : Bool) : Except (List Char) Unit :=
  if putOk then Except.ok () else Except.error storageFailMsg

/-- `QualityAnalysisState.getSession` (part_002, lines 318-340): returns the
existing session after refreshing `lastActivity`, or lazily creates a fresh
one; both branches call `saveState`, whose failure propagates.  The map
mutation happens before `saveState`, so it survives a storage failure. -/
def getSession (putOk : Bool) (m : SessionMap) (sid : List Char)
    (u : Option (List Char)) (now : Int) :
    SessionMap × Except (List Char) AnalysisSession :=
  match mapGet m sid with
  | none =>
    let s := freshSession sid u now
    let m1 := mapSet m sid s
    (m1, match saveState putOk with
         | Except.ok _ => Except.ok s
         | Except.error e => Except.error e)
  | some s =>
    let s1 := { s with lastActivity := now }
    let m1 := mapSet m sid s1
    (m1, match saveState putOk with
         | Except.ok _ => Except.ok s1
         | Except.error e => Except.error e)

/-- Prefix prepended by the `catch` of `saveAnalysis` when re-throwing. -/
def saveAnalysisFailPrefix : List Char :=
  ("Failed to save analysis: ").toList

/-- The `InvalidInput` message of `saveAnalysis`. -/
def invalidInputMsg : List Char :=
  ("Session ID and analysis result are required").toList

/-- `QualityAnalysisState.saveAnalysis` (part_002, lines 345-379): rejects a
falsy (empty) session id, obtains the session via `getSession` (first
`saveState`, outcome `putOk1`), applies the session mutation
`saveAnalysisStep`, then persists (second `saveState`, outcome `putOk2`).
Every inner exception is caught and re-thrown with the
`Failed to save analysis: ` prefix.  In-memory mutations performed before a
failing `saveState` are kept — JS exceptions roll nothing back. -/
def saveAnalysis (putOk1 putOk2 : Bool) (m : SessionMap) (sid : List Char)
    (a : CodeAnalysisResult) (now : Int) :
    SessionMap × Except (List Char) Unit :=
  if sid = [] then
    (m, Except.error (saveAnalysisFailPrefix ++ invalidInputMsg))
  else
    match getSession putOk1 m sid none now with
    | (m1, Except.error e) => (m1, Except.error (saveAnalysisFailPrefix ++ e))
    | (m1, Except.ok s) =>
      let s1 := saveAnalysisStep s a now
      let m2 := mapSet m1 sid s1
      match saveState putOk2 with
      | Except.ok _ => (m2, Except.ok ())
      | Except.error e => (m2, Except.error (saveAnalysisFailPrefix ++ e))

/-- The deletion loop of `QualityAnalysisState.cleanupOldSessions` (part_002,
lines 463-468): every session whose idle time strictly exceeds `maxAge` is
deleted and counted, the others stay untouched. -/
def cleanupLoop (now maxAge : Int) : List (List Char × AnalysisSession) →
    List (List Char × AnalysisSession) × Nat
  | [] => ([], 0)
  | e :: rest =>
    let r := cleanupLoop now maxAge rest
    if now - e.2.lastActivity > maxAge then (r.1, r.2 + 1) else (e :: r.1, r.2)

/-- `QualityAnalysisState.cleanupOldSessions` (part_002, lines 459-475):
runs the deletion loop, persists once if anything was removed (a storage
failure there propagates — there is no `catch`), and returns the count. -/
def cleanupOldSessions (putOk : Bool) (m : SessionMap) (now maxAge : Int) :
    SessionMap × Except (List Char) Nat :=
  let r := cleanupLoop now maxAge m
  if r.2 > 0 then
    (r.1, match saveState putOk with
          | Except.ok _ => Except.ok r.2
          | Except.error e => Except.error e)
  else (r.1, Except.ok r.2)

/-- The durable object's `fetch` handler on `POST /analysis` (part_002,
lines 495-501, 533-538): a `saveAnalysis` exception becomes a 500 response,
success a 200 one; the boolean is `response.ok` as seen by the agent. -/
def fetchAnalysisPost (putOk1 putOk2 : Bool) (m : SessionMap) (sid : List Char)
    (a : CodeAnalysisResult) (now : Int) : SessionMap × Bool :=
  let r := saveAnalysis putOk1 putOk2 m sid a now
  (r.1, match r.2 with
        | Except.ok _ => true
        | Except.error _ => false)

/-- `CodeQualityAgent.saveAnalysisResult` (part_002, lines 235-255): posts
the analysis to the durable object, throws on a non-ok response — and then
its own `catch` logs and deliberately does not re-throw, so the write-through
never fails its caller. -/
def saveAnalysisResult (putOk1 putOk2 : Bool) (m : SessionMap) (sid : List Char)
    (a : CodeAnalysisResult) (now : Int) :
    SessionMap × Except (List Char) Unit :=
  let f := fetchAnalysisPost putOk1 putOk2 m sid a now
  let attempt : Except (List Char) Unit :=
    if f.2 then Except.ok ()
    else Except.error (("Failed to save analysis: Internal Server Error").toList)
  (f.1, match attempt with
        | Except.ok u => Except.ok u
        | Except.error _ => Except.ok ())

/-- The fixed placeholder result stored after a successful agent analysis
(part_002, lines 149-155). -/
def mockStoredResult : CodeAnalysisResult :=
  { securityIssues :=
      [{ severity := Severity.medium
         issue := ("Analysis completed").toList
         line := some 1
         suggestion := ("Review security recommendations above").toList }]
    performanceIssues :=
      [{ severity := Severity.medium
         issue := ("Analysis completed").toList
         line := some 1
         suggestion := ("Review performance recommendations above").toList }]
    qualityIssues :=
      [{ severity := Severity.medium
         issue := ("Analysis completed").toList
         line := some 1
         suggestion := ("Review quality recommendations above").toList }]
    overallScore := some 75
    summary := ("Comprehensive code analysis completed using Workers AI").toList }

/-- The combined report template of `CodeQualityAgent.performCodeAnalysis`
(part_002, lines 132-146). -/
def combinedReport (sec perf qual : List Char) : List Char :=
  ("# 🔍 Code Quality Analysis Report\n\n## 🛡️ Security Analysis\n").toList ++ sec
    ++ ("\n\n## ⚡ Performance Analysis  \n").toList ++ perf
    ++ ("\n\n## 📋 Quality Analysis\n").toList ++ qual
    ++ ("\n\n## 📊 Summary\nYour code has been analyzed for security vulnerabilities, performance issues, and quality concerns. Review the specific recommendations above to improve your code.\n\n*Analysis powered by Cloudflare Workers AI (Llama 3.3)*").toList

/-- `CodeQualityAgent.performCodeAnalysis` (part_002, lines 118-178) after
the three Workers-AI calls have produced `sec`, `perf` and `qual`: builds
the combined report, attempts the write-through via `saveAnalysisResult`,
and streams the report — whatever the persistence outcome was. -/
def performCodeAnalysis (putOk1 putOk2 : Bool) (m : SessionMap)
    (sid : List Char) (now : Int) (sec perf qual : List Char) :
    SessionMap × List Char :=
  let combined := combinedReport sec perf qual
  let saved := saveAnalysisResult putOk1 putOk2 m sid mockStoredResult now
  (saved.1, combined)

/-! ### Concrete values and specification-side predicates used in claims -/

/-- A minimal analysis result carrying a given `overallScore`. -/
def plainResult (o : Option ℚ) : CodeAnalysisResult :=
  { securityIssues := []
    performanceIssues := []
    qualityIssues := []
    overallScore := o
    summary := [] }

/-- A model layer whose every analysis call rejects. -/
def runFailAll : Aspect → List Char → Except (List Char) Nat :=
  fun _ _ => Except.error (("model failure").toList)

/-- A model layer where exactly the performance analysis call rejects. -/
def runMixed : Aspect → List Char → Except (List Char) Nat :=
  fun a _ =>
    match a with
    | Aspect.performance => Except.error (("model failure").toList)
    | _ => Except.ok 7

/-- Specification-side reading of the fenced-code-block pattern: the text
splits around two three-backtick fences. -/
def fencedBlockProp (s : List Char) : Prop :=
  ∃ a b c, s = a ++ tick3 ++ b ++ tick3 ++ c

/-- Specification-side reading of the inline-code-span pattern: a backtick,
a nonempty run of non-backtick characters, and a closing backtick. -/
def inlineCodeProp (s : List Char) : Prop :=
  ∃ a m c, s = a ++ [tick] ++ m ++ [tick] ++ c ∧ m ≠ [] ∧ tick ∉ m

/-- Modelled from the claim's words (C4): the twelve keywords the claim
attributes to the classifier.  The classifier in `src/index.ts` actually
uses only the six of `analysisKeywordList`. -/
def specKeywordList : List (List Char) :=
  [("analyze").toList, ("review").toList, ("check").toList, ("audit").toList,
   ("security").toList, ("performance").toList, ("quality").toList,
   ("vulnerability").toList, ("optimize").toList, ("improve").toList,
   ("bug").toList, ("issue").toList]

/-- Modelled from the claim's words (C4): the classification condition the
claim asserts for `isAnalysisRequest`. -/
def specClassifierProp (s : List Char) : Prop :=
  fencedBlockProp s ∨ inlineCodeProp s
    ∨ (∃ k ∈ specKeywordList, k <:+: lowerStr s)
    ∨ (∃ k ∈ structuralTokenList, k <:+: s)

/-! ### Helper lemmas about `lastN` and the save fold -/

theorem lastN_length (n : Nat) (l : List α) : (lastN n l).length = min l.length n := by
  simp only [lastN, List.length_drop]
  omega

theorem lastN_of_le (n : Nat) (l : List α) (h : l.length ≤ n) : lastN n l = l := by
  simp [lastN, Nat.sub_eq_zero_of_le h]

theorem lastN_append_one (n : Nat) (l : List α) (a : α) :
    lastN n l ++ [a] = lastN (n + 1) (l ++ [a]) := by
  have hlen : (l ++ [a]).length - (n + 1) = l.length - n := by
    simp only [List.length_append, List.length_cons, List.length_nil]
    omega
  simp only [lastN, hlen]
  rw [List.drop_append_of_le_length (by omega)]

theorem lastN_lastN (k n : Nat) (l : List α) (h : k ≤ n) :
    lastN k (lastN n l) = lastN k l := by
  simp only [lastN, List.length_drop, List.drop_drop]
  congr 1
  omega

theorem map_lastN (f : α → β) (n : Nat) (l : List α) :
    (lastN n l).map f = lastN n (l.map f) := by
  simp [lastN, List.map_drop, List.length_map]

theorem lastN_cap_step (X : List α) (y : α) :
    (if (lastN 50 X ++ [y]).length > 50 then lastN 50 (lastN 50 X ++ [y])
     else lastN 50 X ++ [y]) = lastN 50 (X ++ [y]) := by
  rw [lastN_append_one 50 X y, (by norm_num : (50 : Nat) + 1 = 51)]
  by_cases h : (X ++ [y]).length ≤ 50
  · have hlen : (lastN 51 (X ++ [y])).length ≤ 50 := by
      rw [lastN_length]; omega
    rw [if_neg (by omega), lastN_of_le 51 _ (by omega), lastN_of_le 50 _ h]
  · have hlen : (lastN 51 (X ++ [y])).length = 51 := by
      rw [lastN_length]; omega
    rw [if_pos (by omega), lastN_lastN 50 51 _ (by omega)]

theorem runSaves_concat (s : AnalysisSession) (rs : List CodeAnalysisResult)
    (a : CodeAnalysisResult) (now : Int) :
    runSaves s (rs ++ [a]) now = saveAnalysisStep (runSaves s rs now) a now := by
  simp [runSaves, List.foldl_append]

theorem runSaves_analyses (sid : List Char) (u : Option (List Char))
    (t0 now : Int) (rs : List CodeAnalysisResult) :
    (runSaves (freshSession sid u t0) rs now).analyses
        = lastN 50 (rs.map normalizeAnalysis)
    ∧ (runSaves (freshSession sid u t0) rs now).totalAnalyses = rs.length := by
  induction rs using List.reverseRecOn with
  | nil => simp [runSaves, freshSession, lastN]
  | append_singleton l a ih =>
    obtain ⟨h1, h2⟩ := ih
    rw [runSaves_concat]
    constructor
    · simp only [saveAnalysisStep, h1]
      rw [List.map_append, List.map_singleton]
      exact lastN_cap_step (l.map normalizeAnalysis) (normalizeAnalysis a)
    · simp only [saveAnalysisStep, h2, List.length_append, List.length_singleton]

theorem runSaves_averageScore (sid : List Char) (u : Option (List Char))
    (t0 now : Int) (l : List CodeAnalysisResult) (a : CodeAnalysisResult) :
    (runSaves (freshSession sid u t0) (l ++ [a]) now).averageScore
      = jsRound ((lastN 51 ((l ++ [a]).map contribScore)).sum
          / ((l.length + 1 : Nat) : ℚ)) := by
  obtain ⟨h1, h2⟩ := runSaves_analyses sid u t0 now l
  rw [runSaves_concat]
  simp only [saveAnalysisStep, h1, h2]
  have hmap : (lastN 50 (l.map normalizeAnalysis) ++ [normalizeAnalysis a]).map
        (fun r => scoreOrDefault r.overallScore)
      = lastN 51 ((l ++ [a]).map contribScore) := by
    rw [List.map_append, List.map_singleton, map_lastN, List.map_map]
    have hcomp : ((fun r => scoreOrDefault r.overallScore) ∘ normalizeAnalysis)
        = contribScore := by
      funext r
      simp [normalizeAnalysis, contribScore, scoreOrDefault]
    rw [hcomp]
    have hc : scoreOrDefault (normalizeAnalysis a).overallScore = contribScore a := by
      simp [normalizeAnalysis, contribScore]
    rw [hc, lastN_append_one, (by norm_num : (50 : Nat) + 1 = 51)]
    simp [List.map_append]
  rw [hmap]

theorem saveAnalysisStep_getLast (s : AnalysisSession) (a : CodeAnalysisResult)
    (now : Int) :
    (saveAnalysisStep s a now).analyses.getLast? = some (normalizeAnalysis a) := by
  simp only [saveAnalysisStep]
  by_cases h : (s.analyses ++ [normalizeAnalysis a]).length > 50
  · rw [if_pos h, (by norm_num : (50 : Nat) = 49 + 1), ← lastN_append_one,
      List.getLast?_concat]
  · rw [if_neg h, List.getLast?_concat]

theorem contribScore_plain (q : ℚ) (h0 : 0 ≤ q) (h1 : q ≤ 100) (hq : q ≠ 0) :
    contribScore (plainResult (some q)) = q := by
  have hno : ¬ (q < 0 ∨ q > 100) := by
    push_neg
    exact ⟨h0, h1⟩
  simp [contribScore, plainResult, normalizeScore, scoreOrDefault, hno, hq]

theorem lastN_replicate (n m : Nat) (c : α) :
    lastN n (List.replicate m c) = List.replicate (min n m) c := by
  simp only [lastN, List.length_replicate, List.drop_replicate]
  congr 1
  omega

theorem sum_replicate_rat (n : Nat) (c : ℚ) :
    (List.replicate n c).sum = (n : ℚ) * c := by
  rw [List.sum_replicate, nsmul_eq_mul]

/-! ### Claim C5 -/

/-- C5: after `n` `saveAnalysis` calls on one session, `totalAnalyses = n`
(so the counter never shrinks), and the stored history is exactly the
`min n 50` most recently saved (normalized) results, oldest evicted first;
in particular 51 calls leave `history.length = 50` and `totalAnalyses = 51`. -/
theorem saveAnalysis_history_cap (sid : List Char) (u : Option (List Char))
    (t0 now : Int) (rs : List CodeAnalysisResult) :
    (runSaves (freshSession sid u t0) rs now).totalAnalyses = rs.length
    ∧ (runSaves (freshSession sid u t0) rs now).analyses
        = lastN 50 (rs.map normalizeAnalysis)
    ∧ (runSaves (freshSession sid u t0) rs now).analyses.length
        = min rs.length 50 := by
  obtain ⟨h1, h2⟩ := runSaves_analyses sid u t0 now rs
  refine ⟨h2, h1, ?_⟩
  rw [h1, lastN_length, List.length_map]

/-! ### Claim C6 -/

/-- C6: `saveAnalysis` never rejects a result because of its score: the
stored entry always carries the normalized score (missing scores and the
out-of-range 150 become 50, any score in `[0,100]` is kept unchanged), and
with working storage and a non-empty session id the operation succeeds for
every submitted result. -/
theorem saveAnalysis_score_normalization (s : AnalysisSession)
    (a : CodeAnalysisResult) (now : Int) (q : ℚ) (h0 : 0 ≤ q) (h1 : q ≤ 100)
    (m : SessionMap) (sid : List Char) (b : CodeAnalysisResult) (now2 : Int)
    (hsid : sid ≠ []) :
    (saveAnalysisStep s a now).analyses.getLast? = some (normalizeAnalysis a)
    ∧ normalizeScore none = 50
    ∧ normalizeScore (some 150) = 50
    ∧ normalizeScore (some q) = q
    ∧ (saveAnalysis true true m sid b now2).2 = Except.ok () := by
  refine ⟨saveAnalysisStep_getLast s a now, rfl, ?_, ?_, ?_⟩
  · norm_num [normalizeScore]
  · have hno : ¬ (q < 0 ∨ q > 100) := by
      push_neg
      exact ⟨h0, h1⟩
    simp [normalizeScore, hno]
  · cases hm : mapGet m sid with
    | none => simp [saveAnalysis, hsid, getSession, hm, saveState]
    | some s0 => simp [saveAnalysis, hsid, getSession, hm, saveState]

/-- Witness for C6 at concrete inputs. -/
theorem saveAnalysis_score_normalization_witness :
    (0 : ℚ) ≤ 75 ∧ (75 : ℚ) ≤ 100 ∧ ("s").toList ≠ [] ∧
    ((saveAnalysisStep (freshSession [] none 0) (plainResult (some 150)) 0).analyses.getLast?
        = some (normalizeAnalysis (plainResult (some 150)))
      ∧ normalizeScore none = 50
      ∧ normalizeScore (some 150) = 50
      ∧ normalizeScore (some 75) = 75
      ∧ (saveAnalysis true true [] (("s").toList) (plainResult (some 150)) 0).2
          = Except.ok ()) :=
  ⟨by decide, by decide, by decide,
    saveAnalysis_score_normalization (freshSession [] none 0)
      (plainResult (some 150)) 0 75 (by decide) (by decide) []
      (("s").toList) (plainResult (some 150)) 0 (by decide)⟩

/-! ### Claim C1 -/

/-- C1 (amended): after each save, `averageScore` is the JS rounding of the
sum of `contribScore` over the window retained at save time — the last
`min (n, 51)` saved results — divided by the full counter `totalAnalyses`;
while at most 51 results have been saved this coincides with the rounded
historical mean (with 50 substituted for missing or zero scores), but beyond
that evicted entries no longer contribute. -/
theorem saveAnalysis_averageScore_window (sid : List Char)
    (u : Option (List Char)) (t0 now : Int) (l : List CodeAnalysisResult)
    (a : CodeAnalysisResult) :
    (runSaves (freshSession sid u t0) (l ++ [a]) now).averageScore
      = jsRound ((lastN 51 ((l ++ [a]).map contribScore)).sum
          / ((l.length + 1 : Nat) : ℚ))
    ∧ (l.length ≤ 50 →
        (runSaves (freshSession sid u t0) (l ++ [a]) now).averageScore
          = jsRound (((l ++ [a]).map contribScore).sum
              / ((l.length + 1 : Nat) : ℚ))) := by
  refine ⟨runSaves_averageScore sid u t0 now l a, fun h => ?_⟩
  rw [runSaves_averageScore sid u t0 now l a,
    lastN_of_le 51 _ (by simp [List.length_append]; omega)]

/-- Witness for C1's amended full-history clause at a concrete input. -/
theorem saveAnalysis_averageScore_window_witness :
    ([] : List CodeAnalysisResult).length ≤ 50
    ∧ (runSaves (freshSession [] none 0) ([] ++ [plainResult (some 100)]) 0).averageScore
        = jsRound ((([] ++ [plainResult (some 100)]).map contribScore).sum
            / ((([] : List CodeAnalysisResult).length + 1 : Nat) : ℚ)) :=
  ⟨by decide,
    (saveAnalysis_averageScore_window [] none 0 0 [] (plainResult (some 100))).2
      (by decide)⟩

/-- C1 counterexample: 52 saves of score-100 results leave
`averageScore = 98`, although the rounded historical mean over all
`totalAnalyses = 52` saved scores demanded by the claim is 100 — eviction
from the 50-slot window makes the stored mean drift. -/
theorem saveAnalysis_average_history_counterexample :
    (runSaves (freshSession [] none 0)
        (List.replicate 52 (plainResult (some 100))) 0).averageScore = 98
    ∧ (runSaves (freshSession [] none 0)
        (List.replicate 52 (plainResult (some 100))) 0).totalAnalyses = 52
    ∧ jsRound (((List.replicate 52 (plainResult (some 100))).map contribScore).sum
        / ((52 : Nat) : ℚ)) = 100 := by
  have hc : contribScore (plainResult (some 100)) = 100 :=
    contribScore_plain 100 (by norm_num) (by norm_num) (by norm_num)
  have hsplit : List.replicate 52 (plainResult (some 100))
      = List.replicate 51 (plainResult (some 100)) ++ [plainResult (some 100)] := by
    rw [(by norm_num : (52 : Nat) = 51 + 1), List.replicate_succ']
  refine ⟨?_, ?_, ?_⟩
  · rw [hsplit, runSaves_averageScore]
    have hm : (List.replicate 51 (plainResult (some 100))
          ++ [plainResult (some 100)]).map contribScore
        = List.replicate 52 (100 : ℚ) := by
      rw [← hsplit, List.map_replicate, hc]
    rw [hm]
    have hlast : lastN 51 (List.replicate 52 (100 : ℚ))
        = List.replicate 51 (100 : ℚ) := by
      rw [lastN_replicate]
      norm_num
    rw [hlast, sum_replicate_rat]
    have hden : (((List.replicate 51 (plainResult (some 100))).length + 1 : Nat) : ℚ)
        = 52 := by
      simp
    rw [hden]
    norm_num [jsRound]
  · rw [(runSaves_analyses [] none 0 0 _).2]
    simp
  · rw [List.map_replicate, hc, sum_replicate_rat]
    norm_num [jsRound]

/-! ### Claim C9 -/

/-- C9 (amended): a result with `overallScore` exactly 0 passes validation
and is stored with score 0, yet the averaging substitutes the neutral 50 for
it (`0` is falsy in JS); consequently a session of `n + 1 ≤ 51` all-zero
saves reports `averageScore = 50` — but not 0.  (Beyond 51 saves the window
truncation of C1 additionally lowers the value.) -/
theorem zero_score_saves_average (n : Nat) (hn : n ≤ 50) (sid : List Char)
    (u : Option (List Char)) (t0 now : Int) :
    (∀ r ∈ (runSaves (freshSession sid u t0)
        (List.replicate (n + 1) (plainResult (some 0))) now).analyses,
        r.overallScore = some 0)
    ∧ (runSaves (freshSession sid u t0)
        (List.replicate (n + 1) (plainResult (some 0))) now).averageScore = 50 := by
  have hnorm : normalizeAnalysis (plainResult (some 0)) = plainResult (some 0) := by
    norm_num [normalizeAnalysis, plainResult, normalizeScore]
  have hc : contribScore (plainResult (some 0)) = 50 := by
    norm_num [contribScore, plainResult, normalizeScore, scoreOrDefault]
  have hsplit : List.replicate (n + 1) (plainResult (some 0))
      = List.replicate n (plainResult (some 0)) ++ [plainResult (some 0)] :=
    List.replicate_succ' n _
  constructor
  · intro r hr
    have h1 := (runSaves_analyses sid u t0 now
      (List.replicate (n + 1) (plainResult (some 0)))).1
    rw [h1, List.map_replicate, hnorm, lastN_replicate] at hr
    rw [List.eq_of_mem_replicate hr]
    rfl
  · rw [hsplit, runSaves_averageScore]
    have hm : (List.replicate n (plainResult (some 0))
          ++ [plainResult (some 0)]).map contribScore
        = List.replicate (n + 1) (50 : ℚ) := by
      rw [← hsplit, List.map_replicate, hc]
    rw [hm]
    have hlast : lastN 51 (List.replicate (n + 1) (50 : ℚ))
        = List.replicate (n + 1) (50 : ℚ) := by
      rw [lastN_replicate]
      congr 1
      omega
    rw [hlast, sum_replicate_rat]
    have hlen : ((List.replicate n (plainResult (some 0))).length + 1 : Nat)
        = n + 1 := by
      simp
    rw [hlen]
    have hnz : ((n + 1 : Nat) : ℚ) ≠ 0 := by
      positivity
    rw [mul_div_cancel_left₀ _ hnz]
    norm_num [jsRound]

/-- Witness for C9 at a concrete input (three all-zero saves). -/
theorem zero_score_saves_average_witness :
    (2 : Nat) ≤ 50
    ∧ ((∀ r ∈ (runSaves (freshSession [] none 0)
          (List.replicate (2 + 1) (plainResult (some 0))) 0).analyses,
          r.overallScore = some 0)
      ∧ (runSaves (freshSession [] none 0)
          (List.replicate (2 + 1) (plainResult (some 0))) 0).averageScore = 50) :=
  ⟨by decide, zero_score_saves_average 2 (by decide) [] none 0 0⟩

/-- C9 counterexample to the claim's universal consequent: after 52 all-zero
saves the session reports `averageScore = 49`, not the 50 the claim asserts
for every such session (window truncation, cf. C1). -/
theorem zero_score_average_counterexample :
    (runSaves (freshSession [] none 0)
        (List.replicate 52 (plainResult (some 0))) 0).averageScore = 49 := by
  have hc : contribScore (plainResult (some 0)) = 50 := by
    norm_num [contribScore, plainResult, normalizeScore, scoreOrDefault]
  have hsplit : List.replicate 52 (plainResult (some 0))
      = List.replicate 51 (plainResult (some 0)) ++ [plainResult (some 0)] := by
    rw [(by norm_num : (52 : Nat) = 51 + 1), List.replicate_succ']
  rw [hsplit, runSaves_averageScore]
  have hm : (List.replicate 51 (plainResult (some 0))
        ++ [plainResult (some 0)]).map contribScore
      = List.replicate 52 (50 : ℚ) := by
    rw [← hsplit, List.map_replicate, hc]
  rw [hm]
  have hlast : lastN 51 (List.replicate 52 (50 : ℚ))
      = List.replicate 51 (50 : ℚ) := by
    rw [lastN_replicate]
    norm_num
  rw [hlast, sum_replicate_rat]
  have hden : (((List.replicate 51 (plainResult (some 0))).length + 1 : Nat) : ℚ)
      = 52 := by
    simp
  rw [hden]
  norm_num [jsRound]

/-! ### Claim C8 -/

theorem cleanupLoop_eq (now maxAge : Int) (m : List (List Char × AnalysisSession)) :
    cleanupLoop now maxAge m
      = (m.filter (fun e => decide (now - e.2.lastActivity ≤ maxAge)),
         (m.filter (fun e => decide (maxAge < now - e.2.lastActivity))).length) := by
  induction m with
  | nil => rfl
  | cons e rest ih =>
    simp only [cleanupLoop, ih, List.filter_cons, decide_eq_true_eq]
    by_cases h : now - e.2.lastActivity > maxAge
    · rw [if_pos h,
        if_neg (show ¬ (now - e.2.lastActivity ≤ maxAge) by omega),
        if_pos (show maxAge < now - e.2.lastActivity by omega)]
      simp
    · rw [if_neg h,
        if_pos (show now - e.2.lastActivity ≤ maxAge by omega),
        if_neg (show ¬ (maxAge < now - e.2.lastActivity) by omega)]

/-- C8: `cleanupOldSessions` keeps exactly the sessions whose idle time
`now - lastActivity` does not exceed `maxAgeMs` (removing the strictly-idle
ones and leaving every kept entry unchanged), returns the number of removed
sessions, and on an empty store returns 0 without failing, whatever the
storage outcome would be. -/
theorem cleanupOldSessions_spec (m : SessionMap) (now maxAge : Int)
    (putOk : Bool) :
    (cleanupOldSessions putOk m now maxAge).1
        = m.filter (fun e => decide (now - e.2.lastActivity ≤ maxAge))
    ∧ (cleanupOldSessions true m now maxAge).2
        = Except.ok ((m.filter (fun e => decide (maxAge < now - e.2.lastActivity))).length)
    ∧ cleanupOldSessions putOk [] now maxAge = ([], Except.ok 0) := by
  refine ⟨?_, ?_, rfl⟩
  · simp only [cleanupOldSessions, cleanupLoop_eq]
    split <;> rfl
  · simp only [cleanupOldSessions, cleanupLoop_eq, saveState]
    split <;> rfl

/-! ### Map helper lemmas -/

theorem mapGet_mapSet_self (m : SessionMap) (k : List Char) (v : AnalysisSession) :
    mapGet (mapSet m k v) k = some v := by
  induction m with
  | nil => simp [mapGet, mapSet]
  | cons e rest ih =>
    by_cases h : e.1 = k
    · simp [mapGet, mapSet, h]
    · simp [mapGet, mapSet, h, ih]

/-! ### Claim C7 -/

/-- C7: with the analysis-write `saveState` failing, a direct `saveAnalysis`
call surfaces the storage failure to its caller, while the agent's
write-through `saveAnalysisResult` swallows exactly the same failure and the
analysis response streamed by `performCodeAnalysis` is the same as with
working storage. -/
theorem storage_failure_surfacing (m : SessionMap) (sid : List Char)
    (a : CodeAnalysisResult) (now : Int) (sec perf qual : List Char)
    (hsid : sid ≠ []) :
    (saveAnalysis true false m sid a now).2
        = Except.error (saveAnalysisFailPrefix ++ storageFailMsg)
    ∧ (saveAnalysisResult true false m sid a now).2 = Except.ok ()
    ∧ (performCodeAnalysis true false m sid now sec perf qual).2
        = (performCodeAnalysis true true m sid now sec perf qual).2 := by
  refine ⟨?_, ?_, rfl⟩
  · cases hm : mapGet m sid with
    | none => simp [saveAnalysis, hsid, getSession, hm, saveState]
    | some s0 => simp [saveAnalysis, hsid, getSession, hm, saveState]
  · simp only [saveAnalysisResult]
    split <;> rfl

/-- Witness for C7 at concrete inputs. -/
theorem storage_failure_surfacing_witness :
    ("s").toList ≠ []
    ∧ ((saveAnalysis true false [] (("s").toList) (plainResult (some 100)) 0).2
          = Except.error (saveAnalysisFailPrefix ++ storageFailMsg)
      ∧ (saveAnalysisResult true false [] (("s").toList) (plainResult (some 100)) 0).2
          = Except.ok ()
      ∧ (performCodeAnalysis true false [] (("s").toList) 0 [] [] []).2
          = (performCodeAnalysis true true [] (("s").toList) 0 [] [] []).2) :=
  ⟨by decide,
    storage_failure_surfacing [] (("s").toList) (plainResult (some 100)) 0
      [] [] [] (by decide)⟩

/-! ### Claim C10 -/

/-- C10: `saveAnalysis` is not atomic with respect to persistence failure:
when the final durable write fails, the call returns the storage error, yet
the in-memory map already holds the fully mutated session — analysis
appended (as its last history entry), `totalAnalyses` incremented,
`lastActivity` set — and nothing is rolled back. -/
theorem saveAnalysis_not_atomic (m : SessionMap) (sid : List Char)
    (s0 : AnalysisSession) (a : CodeAnalysisResult) (now : Int)
    (hsid : sid ≠ []) (hm : mapGet m sid = some s0) :
    (saveAnalysis true false m sid a now).2
        = Except.error (saveAnalysisFailPrefix ++ storageFailMsg)
    ∧ mapGet (saveAnalysis true false m sid a now).1 sid
        = some (saveAnalysisStep { s0 with lastActivity := now } a now)
    ∧ (saveAnalysisStep { s0 with lastActivity := now } a now).totalAnalyses
        = s0.totalAnalyses + 1
    ∧ (saveAnalysisStep { s0 with lastActivity := now } a now).analyses.getLast?
        = some (normalizeAnalysis a)
    ∧ (saveAnalysisStep { s0 with lastActivity := now } a now).lastActivity
        = now := by
  refine ⟨?_, ?_, rfl, saveAnalysisStep_getLast _ a now, rfl⟩
  · simp [saveAnalysis, hsid, getSession, hm, saveState]
  · have hmap : (saveAnalysis true false m sid a now).1
        = mapSet (mapSet m sid { s0 with lastActivity := now }) sid
            (saveAnalysisStep { s0 with lastActivity := now } a now) := by
      simp [saveAnalysis, hsid, getSession, hm, saveState]
    rw [hmap, mapGet_mapSet_self]

/-- Witness for C10 at concrete inputs. -/
theorem saveAnalysis_not_atomic_witness :
    ("w").toList ≠ []
    ∧ mapGet [((("w").toList), freshSession (("w").toList) none 0)] (("w").toList)
        = some (freshSession (("w").toList) none 0)
    ∧ ((saveAnalysis true false [((("w").toList), freshSession (("w").toList) none 0)]
          (("w").toList) (plainResult none) 5).2
        = Except.error (saveAnalysisFailPrefix ++ storageFailMsg)
      ∧ mapGet (saveAnalysis true false [((("w").toList), freshSession (("w").toList) none 0)]
          (("w").toList) (plainResult none) 5).1 (("w").toList)
        = some (saveAnalysisStep
            { freshSession (("w").toList) none 0 with lastActivity := 5 }
            (plainResult none) 5)
      ∧ (saveAnalysisStep
            { freshSession (("w").toList) none 0 with lastActivity := 5 }
            (plainResult none) 5).totalAnalyses
        = (freshSession (("w").toList) none 0).totalAnalyses + 1
      ∧ (saveAnalysisStep
            { freshSession (("w").toList) none 0 with lastActivity := 5 }
            (plainResult none) 5).analyses.getLast?
        = some (normalizeAnalysis (plainResult none))
      ∧ (saveAnalysisStep
            { freshSession (("w").toList) none 0 with lastActivity := 5 }
            (plainResult none) 5).lastActivity = 5) :=
  ⟨by decide, by decide,
    saveAnalysis_not_atomic [((("w").toList), freshSession (("w").toList) none 0)]
      (("w").toList) (freshSession (("w").toList) none 0) (plainResult none) 5
      (by decide) (by decide)⟩

/-! ### Claims C2 and C3 -/

/-- C2 counterexample: with empty code and an empty aspect set — inputs for
which the claim demands a propagated error — the dispatcher returns
`Except.ok` with an empty results object; its body contains no failure path
at all. -/
theorem performParallelAnalysis_no_error_counterexample :
    performParallelAnalysis [] [] runFailAll
      = Except.ok ({ security := none, performance := none, quality := none } :
          DispatchResults Nat) := by
  rfl

/-- C2 (amended): the workflow dispatcher never propagates an error: for
every code (empty included), every requested aspect list (empty included)
and every model-layer behaviour it returns `Except.ok`, the results object
carrying a field exactly for each requested aspect.  (The empty-code guard
the claim describes lives only in `SimpleCodeAgent.analyzeWithWorkersAI`,
not in the dispatcher.) -/
theorem performParallelAnalysis_total (α : Type) (code : List Char)
    (ts : List Aspect) (run : Aspect → List Char → Except (List Char) α) :
    ∃ r, performParallelAnalysis code ts run = Except.ok r
      ∧ (r.field Aspect.security).isSome = decide (Aspect.security ∈ ts)
      ∧ (r.field Aspect.performance).isSome = decide (Aspect.performance ∈ ts)
      ∧ (r.field Aspect.quality).isSome = decide (Aspect.quality ∈ ts) := by
  refine ⟨_, rfl, ?_, ?_, ?_⟩ <;>
    by_cases hs : Aspect.security ∈ ts <;>
      by_cases hp : Aspect.performance ∈ ts <;>
        by_cases hq : Aspect.quality ∈ ts <;>
          simp [performParallelAnalysis, DispatchResults.field, settleAt,
            hs, hp, hq]

/-- C3: the dispatcher reflects the settlement of every launched call: the
operation returns `Except.ok`, and each requested aspect's field carries the
fulfilled value of that aspect's own analysis call — or that aspect's
sentinel error entry when its call rejected — so a failing call never aborts
its siblings and no rejection escapes `performParallelAnalysis`. -/
theorem performParallelAnalysis_settle_all (α : Type) (code : List Char)
    (ts : List Aspect) (run : Aspect → List Char → Except (List Char) α)
    (a : Aspect) (ha : a ∈ ts) :
    ∃ r, performParallelAnalysis code ts run = Except.ok r
      ∧ r.field a = some (settleOutcome (aspectFailSentinel a) (run a code)) := by
  refine ⟨_, rfl, ?_⟩
  cases hrun : run a code <;>
    cases a <;>
      by_cases hs : Aspect.security ∈ ts <;>
        by_cases hp : Aspect.performance ∈ ts <;>
          by_cases hq : Aspect.quality ∈ ts <;>
            simp_all [performParallelAnalysis, DispatchResults.field, settleAt,
              settleOutcome, aspectFailSentinel]

/-- Witness for C3: security and performance requested, the performance call
mocked to fail; its field carries the sentinel produced from its own
settlement. -/
theorem performParallelAnalysis_settle_all_witness :
    Aspect.performance ∈ [Aspect.security, Aspect.performance]
    ∧ ∃ r, performParallelAnalysis [] [Aspect.security, Aspect.performance] runMixed
          = Except.ok r
        ∧ r.field Aspect.performance
          = some (settleOutcome (aspectFailSentinel Aspect.performance)
              (runMixed Aspect.performance [])) :=
  ⟨by decide,
    performParallelAnalysis_settle_all Nat [] [Aspect.security, Aspect.performance]
      runMixed Aspect.performance (by decide)⟩

/-! ### Claim C4: classifier characterization -/

theorem containsSub_iff (n h : List Char) : containsSub n h = true ↔ n <:+: h := by
  induction h with
  | nil =>
    simp [containsSub, List.isPrefixOf_iff_prefix, List.prefix_nil, List.infix_nil]
  | cons c rest ih =>
    simp [containsSub, List.isPrefixOf_iff_prefix, ih, List.infix_cons_iff]

theorem hasFencedBlock_iff (s : List Char) :
    hasFencedBlock s = true ↔ fencedBlockProp s := by
  induction s with
  | nil =>
    simp only [hasFencedBlock, fencedBlockProp, tick3]
    constructor
    · intro h
      exact absurd h (by simp)
    · rintro ⟨a, b, c, habc⟩
      exact absurd habc.symm (by simp)
  | cons c rest ih =>
    constructor
    · intro h
      simp only [hasFencedBlock, Bool.or_eq_true, Bool.and_eq_true] at h
      rcases h with ⟨hpre, hsub⟩ | h2
      · obtain ⟨u, hu⟩ := List.isPrefixOf_iff_prefix.mp hpre
        have hdrop : (c :: rest).drop 3 = u := by
          rw [← hu]
          rfl
        obtain ⟨x, y, hxy⟩ := (containsSub_iff _ _).mp (hdrop ▸ hsub)
        refine ⟨[], x, y, ?_⟩
        rw [← hu, ← hxy]
        simp
      · obtain ⟨a, b, cc, habc⟩ := ih.mp h2
        refine ⟨c :: a, b, cc, ?_⟩
        rw [habc]
        simp
    · rintro ⟨a, b, cc, habc⟩
      cases a with
      | nil =>
        simp only [List.nil_append] at habc
        have hpre : tick3.isPrefixOf (c :: rest) = true :=
          List.isPrefixOf_iff_prefix.mpr ⟨b ++ tick3 ++ cc, by rw [habc]; simp⟩
        have hdrop : (c :: rest).drop 3 = b ++ tick3 ++ cc := by
          rw [habc]
          rfl
        have hsub : containsSub tick3 ((c :: rest).drop 3) = true :=
          (containsSub_iff _ _).mpr (by rw [hdrop]; exact ⟨b, cc, rfl⟩)
        simp only [hasFencedBlock, Bool.or_eq_true, Bool.and_eq_true]
        exact Or.inl ⟨hpre, hsub⟩
      | cons c0 a' =>
        have hc : c = c0 ∧ rest = a' ++ tick3 ++ b ++ tick3 ++ cc := by
          rw [List.cons_append, List.cons_append, List.cons_append] at habc
          exact ⟨(List.cons.injEq _ _ _ _).mp habc |>.1,
            by
              have := (List.cons.injEq _ _ _ _).mp habc |>.2
              simpa using this⟩
        have : hasFencedBlock rest = true := ih.mpr ⟨a', b, cc, hc.2⟩
        simp [hasFencedBlock, this]

theorem tickSearch_iff (l : List Char) : tickSearch l = true ↔ tick ∈ l := by
  induction l with
  | nil => simp [tickSearch]
  | cons c rest ih =>
    by_cases h : c = tick
    · simp [tickSearch, h]
    · simp only [tickSearch, if_neg h, ih, List.mem_cons]
      constructor
      · exact Or.inr
      · rintro (h1 | h1)
        · exact absurd h1.symm h
        · exact h1

theorem mem_first_split {a : Char} {l : List Char} (h : a ∈ l) :
    ∃ p q, l = p ++ a :: q ∧ a ∉ p := by
  induction l with
  | nil => cases h
  | cons c rest ih =>
    by_cases hc : c = a
    · exact ⟨[], rest, by rw [hc]; rfl, by simp⟩
    · have h' : a ∈ rest := by
        rcases List.mem_cons.mp h with h1 | h1
        · exact absurd h1.symm hc
        · exact h1
      obtain ⟨p, q, hpq, hnp⟩ := ih h'
      refine ⟨c :: p, q, by rw [hpq]; rfl, ?_⟩
      intro hmem
      rcases List.mem_cons.mp hmem with h1 | h1
      · exact hc h1.symm
      · exact hnp h1

theorem openTickScan_iff (l : List Char) :
    openTickScan l = true ↔ ∃ m q, l = m ++ tick :: q ∧ m ≠ [] ∧ tick ∉ m := by
  constructor
  · cases l with
    | nil => simp [openTickScan]
    | cons c rest =>
      intro h
      by_cases hc : c = tick
      · rw [openTickScan, if_pos hc] at h
        exact absurd h (by simp)
      · rw [openTickScan, if_neg hc] at h
        obtain ⟨p, q, hpq, hnp⟩ := mem_first_split ((tickSearch_iff rest).mp h)
        refine ⟨c :: p, q, by rw [hpq]; rfl, by simp, ?_⟩
        intro hmem
        rcases List.mem_cons.mp hmem with h1 | h1
        · exact hc h1.symm
        · exact hnp h1
  · rintro ⟨m, q, hl, hm, hnt⟩
    cases m with
    | nil => exact absurd rfl hm
    | cons c m' =>
      have hc : ¬ c = tick := by
        intro hh
        exact hnt (by rw [hh]; exact List.mem_cons_self _ _)
      have hmem : tick ∈ m' ++ tick :: q := by simp
      rw [hl, List.cons_append, openTickScan, if_neg hc]
      exact (tickSearch_iff _).mpr hmem

theorem hasInlineCode_iff (s : List Char) :
    hasInlineCode s = true ↔ inlineCodeProp s := by
  induction s with
  | nil =>
    simp only [hasInlineCode, inlineCodeProp]
    constructor
    · intro h
      exact absurd h (by simp)
    · rintro ⟨a, m, c, habc, hm, hnt⟩
      exact absurd habc.symm (by simp)
  | cons c rest ih =>
    constructor
    · intro h
      simp only [hasInlineCode, Bool.or_eq_true] at h
      rcases h with h1 | h2
      · by_cases hc : c = tick
        · rw [if_pos hc] at h1
          obtain ⟨m, q, hrest, hm, hnt⟩ := (openTickScan_iff rest).mp h1
          refine ⟨[], m, q, ?_, hm, hnt⟩
          rw [hc, hrest]
          simp
        · rw [if_neg hc] at h1
          exact absurd h1 (by simp)
      · obtain ⟨a, m, cc, habc, hm, hnt⟩ := ih.mp h2
        refine ⟨c :: a, m, cc, ?_, hm, hnt⟩
        rw [habc]
        simp
    · rintro ⟨a, m, cc, habc, hm, hnt⟩
      cases a with
      | nil =>
        simp only [List.nil_append, List.singleton_append] at habc
        obtain ⟨hc, hrest⟩ := (List.cons.injEq _ _ _ _).mp habc
        simp only [hasInlineCode, Bool.or_eq_true]
        refine Or.inl ?_
        rw [if_pos hc]
        exact (openTickScan_iff rest).mpr ⟨m, cc, by simpa using hrest, hm, hnt⟩
      | cons c0 a' =>
        have hca : c = c0 ∧ rest = a' ++ [tick] ++ m ++ [tick] ++ cc := by
          rw [List.cons_append, List.cons_append, List.cons_append,
            List.cons_append] at habc
          have hinj := (List.cons.injEq _ _ _ _).mp habc
          refine ⟨hinj.1, ?_⟩
          have := hinj.2
          simpa using this
        have : hasInlineCode rest = true :=
          ih.mpr ⟨a', m, cc, by simpa using hca.2, hm, hnt⟩
        simp [hasInlineCode, this]

/-- C4 (amended): `isCodeAnalysisRequest` of `src/index.ts` returns true
exactly when the text matches a fenced multi-line code block, or contains an
inline code span, or case-insensitively contains one of the SIX keywords
{analyze, review, check, security, performance, quality}, or contains
(case-sensitively) one of the structural tokens {function, class, def,
const, let, var, import, export}; otherwise — in particular on the empty
string — it returns false.  It is a pure total function, so it is
deterministic and has no side effects. -/
theorem isCodeAnalysisRequest_characterization (s : List Char) :
    (isCodeAnalysisRequest s = true ↔
      (fencedBlockProp s ∨ inlineCodeProp s
        ∨ (∃ k ∈ analysisKeywordList, k <:+: lowerStr s)
        ∨ (∃ k ∈ structuralTokenList, k <:+: s)))
    ∧ isCodeAnalysisRequest [] = false := by
  refine ⟨?_, by decide⟩
  simp only [isCodeAnalysisRequest, Bool.or_eq_true, hasFencedBlock_iff,
    hasInlineCode_iff, keywordPatternTest, structuralPatternTest,
    List.any_eq_true, containsSub_iff]
  rw [or_assoc, or_assoc]

/-- C4 counterexample: on the input "audit" the claim's condition holds
("audit" is one of its twelve keywords and occurs in the lowercased text),
but `isCodeAnalysisRequest` of `src/index.ts` returns false — its keyword
regex has only six alternatives, without audit, vulnerability, optimize,
improve, bug, issue. -/
theorem isCodeAnalysisRequest_audit_counterexample :
    ¬ (isCodeAnalysisRequest (("audit").toList) = true
        ↔ specClassifierProp (("audit").toList)) := by
  intro h
  have h1 : isCodeAnalysisRequest (("audit").toList) = false := by decide
  have h2 : specClassifierProp (("audit").toList) := by
    refine Or.inr (Or.inr (Or.inl ⟨("audit").toList, ?_, ⟨[], [], ?_⟩⟩))
    · decide
    · decide
  rw [h1] at h
  exact absurd (h.mpr h2) (by decide)
